import Mathlib

/-!
Shallow embedding of the `squircle-rs` crate (src/lib.rs, src/distribute.rs,
src/draw.rs) and verification of its specification claims.

Conventions of the embedding:
* `f64` values are modelled as elements of a `LinearOrderedField` (the budget
  distributor of `distribute.rs` uses no transcendental functions, so it is
  embedded polymorphically; instantiating at `ℚ` makes it kernel-computable,
  instantiating at `ℝ` connects it to the drawing code).
* The drawing code of `draw.rs` uses `sin`, `cos`, `tan`, `π` and `√2`, so it
  is embedded over `ℝ`.
* `f64::min` on non-NaN operands is `min`; NaN-specific behaviour is modelled
  separately (see the `fp_` definitions near the end of the definitions).
* Rust's stable `sort_by` with comparator `radius2.partial_cmp(radius1)` is a
  stable descending sort by radius; `sort_desc` below is the stable insertion
  sort computing exactly that order.
* The SVG strings built with `format!` are modelled as lists of
  space-separated tokens (`" ".intercalate` of the token list is the string);
  the numeric formatting `{:.4}` is an abstract parameter `fmt : ℝ → String`,
  since the digit production lives in Rust's standard library, not in this
  repository.
-/

namespace Squircle

/-! ### distribute.rs -/

/-- Rectangle with four raw corner radii (struct `RoundedRectangle`). -/
structure RoundedRectangle (α : Type*) where
  top_left_corner_radius : α
  top_right_corner_radius : α
  bottom_right_corner_radius : α
  bottom_left_corner_radius : α
  width : α
  height : α
deriving DecidableEq

/-- Output of distribution for one corner (struct `NormalizedCorner`). -/
structure NormalizedCorner (α : Type*) where
  radius : α
  rounding_and_smoothing_budget : α
deriving DecidableEq

/-- The four normalized corners (struct `NormalizedCorners`). -/
structure NormalizedCorners (α : Type*) where
  top_left : NormalizedCorner α
  top_right : NormalizedCorner α
  bottom_left : NormalizedCorner α
  bottom_right : NormalizedCorner α
deriving DecidableEq

/-- The four corner identities (enum `Corner`). -/
inductive Corner where
  | topLeft
  | topRight
  | bottomLeft
  | bottomRight
deriving DecidableEq

/-- The four sides (enum `Side`). -/
inductive Side where
  | top
  | left
  | right
  | bottom
deriving DecidableEq

/-- An adjacent corner together with the shared side (struct `Adjacent`). -/
structure Adjacent where
  corner : Corner
  side : Side
deriving DecidableEq

/-- Static adjacency table (`get_adjacents`). -/
def get_adjacents : Corner → Adjacent × Adjacent
  | Corner.topLeft => (⟨Corner.topRight, Side.top⟩, ⟨Corner.bottomLeft, Side.left⟩)
  | Corner.topRight => (⟨Corner.topLeft, Side.top⟩, ⟨Corner.bottomRight, Side.right⟩)
  | Corner.bottomLeft => (⟨Corner.bottomRight, Side.bottom⟩, ⟨Corner.topLeft, Side.left⟩)
  | Corner.bottomRight => (⟨Corner.bottomLeft, Side.bottom⟩, ⟨Corner.topRight, Side.right⟩)

/-- Per-corner budget map (struct `Budget`); `-1` is the "unset" sentinel. -/
structure Budget (α : Type*) where
  top_left : α
  top_right : α
  bottom_left : α
  bottom_right : α
deriving DecidableEq

/-- Per-corner radius map (struct `CornerRadiusMap`). -/
structure CornerRadiusMap (α : Type*) where
  top_left : α
  top_right : α
  bottom_left : α
  bottom_right : α
deriving DecidableEq

variable {α : Type*} [LinearOrderedField α]

/-- Initial budget map: every corner unset (`Budget::new`). -/
def Budget.new : Budget α := ⟨-1, -1, -1, -1⟩

/-- Read one corner's budget (`Budget::get`). -/
def Budget.get (m : Budget α) : Corner → α
  | Corner.topLeft => m.top_left
  | Corner.topRight => m.top_right
  | Corner.bottomLeft => m.bottom_left
  | Corner.bottomRight => m.bottom_right

/-- Overwrite one corner's budget (`Budget::set`). -/
def Budget.set (m : Budget α) (corner : Corner) (value : α) : Budget α :=
  match corner with
  | Corner.topLeft => { m with top_left := value }
  | Corner.topRight => { m with top_right := value }
  | Corner.bottomLeft => { m with bottom_left := value }
  | Corner.bottomRight => { m with bottom_right := value }

/-- Initial radius map: the raw input radii (`CornerRadiusMap::new`). -/
def CornerRadiusMap.new (rectangle : RoundedRectangle α) : CornerRadiusMap α :=
  ⟨rectangle.top_left_corner_radius, rectangle.top_right_corner_radius,
   rectangle.bottom_left_corner_radius, rectangle.bottom_right_corner_radius⟩

/-- Read one corner's radius (`CornerRadiusMap::get`). -/
def CornerRadiusMap.get (m : CornerRadiusMap α) : Corner → α
  | Corner.topLeft => m.top_left
  | Corner.topRight => m.top_right
  | Corner.bottomLeft => m.bottom_left
  | Corner.bottomRight => m.bottom_right

/-- Overwrite one corner's radius (`CornerRadiusMap::set`). -/
def CornerRadiusMap.set (m : CornerRadiusMap α) (corner : Corner) (value : α) :
    CornerRadiusMap α :=
  match corner with
  | Corner.topLeft => { m with top_left := value }
  | Corner.topRight => { m with top_right := value }
  | Corner.bottomLeft => { m with bottom_left := value }
  | Corner.bottomRight => { m with bottom_right := value }

/-- Stable insertion of an item into a list sorted by descending radius; `x`
goes in front of the first `y` whose radius is not larger. -/
def ordered_insert_desc (x : Corner × α) : List (Corner × α) → List (Corner × α)
  | [] => [x]
  | y :: l => if y.2 ≤ x.2 then x :: y :: l else y :: ordered_insert_desc x l

/-- Stable descending sort by radius; this is the order Rust's stable
`sort_by(|(_, r1), (_, r2)| r2.partial_cmp(r1).unwrap())` produces on
non-NaN radii. -/
def sort_desc : List (Corner × α) → List (Corner × α)
  | [] => []
  | x :: l => ordered_insert_desc x (sort_desc l)

/-- Corner/radius items sorted by descending radius (`CornerRadiusMap::get_items`). -/
def CornerRadiusMap.get_items (m : CornerRadiusMap α) : List (Corner × α) :=
  sort_desc [(Corner.topLeft, m.top_left), (Corner.topRight, m.top_right),
             (Corner.bottomLeft, m.bottom_left), (Corner.bottomRight, m.bottom_right)]

/-- Length of the side of a rectangle (the `match adjacent.side` in the
`calc_budget` closure of `distribute_and_normalize`). -/
def side_len (rectangle : RoundedRectangle α) : Side → α
  | Side.top | Side.bottom => rectangle.width
  | Side.left | Side.right => rectangle.height

/-- The `calc_budget` closure of `distribute_and_normalize`: the budget the
current corner (raw radius `radius`) may claim along the side shared with
`adjacent`, given the current budget and radius maps. -/
def calc_budget (rectangle : RoundedRectangle α) (budgets : Budget α)
    (radii : CornerRadiusMap α) (radius : α) (adjacent : Adjacent) : α :=
  let corner_radius := radii.get adjacent.corner
  if radius = 0 ∧ corner_radius = 0 then 0
  else
    let adjacent_corner_budget := budgets.get adjacent.corner
    let side_length := side_len rectangle adjacent.side
    if 0 ≤ adjacent_corner_budget then side_length - adjacent_corner_budget
    else radius / (radius + corner_radius) * side_length

/-- One iteration of the loop of `distribute_and_normalize`: process one
`(corner, radius)` item, updating the budget map and the radius map. -/
def process_corner (rectangle : RoundedRectangle α)
    (st : Budget α × CornerRadiusMap α) (item : Corner × α) :
    Budget α × CornerRadiusMap α :=
  let budget1 := calc_budget rectangle st.1 st.2 item.2 (get_adjacents item.1).1
  let budget2 := calc_budget rectangle st.1 st.2 item.2 (get_adjacents item.1).2
  let budget := min budget1 budget2
  (st.1.set item.1 budget, st.2.set item.1 (min item.2 budget))

/-- The budget distributor (`distribute_and_normalize`): iterate over the
corners in descending-radius order, then read off the four normalized corners. -/
def distribute_and_normalize (rectangle : RoundedRectangle α) : NormalizedCorners α :=
  let final := ((CornerRadiusMap.new rectangle).get_items).foldl
    (process_corner rectangle) (Budget.new, CornerRadiusMap.new rectangle)
  { top_left := ⟨final.2.top_left, final.1.top_left⟩
    top_right := ⟨final.2.top_right, final.1.top_right⟩
    bottom_left := ⟨final.2.bottom_left, final.1.bottom_left⟩
    bottom_right := ⟨final.2.bottom_right, final.1.bottom_right⟩ }

/-- Spec-level accessor: the normalized corner of a given identity. -/
def corner_norm (nc : NormalizedCorners α) : Corner → NormalizedCorner α
  | Corner.topLeft => nc.top_left
  | Corner.topRight => nc.top_right
  | Corner.bottomLeft => nc.bottom_left
  | Corner.bottomRight => nc.bottom_right

/-- The two corners at the ends of a side. -/
def Side.corners : Side → Corner × Corner
  | Side.top => (Corner.topLeft, Corner.topRight)
  | Side.bottom => (Corner.bottomLeft, Corner.bottomRight)
  | Side.left => (Corner.topLeft, Corner.bottomLeft)
  | Side.right => (Corner.topRight, Corner.bottomRight)

/-- Of the two adjacency entries of corner `X`, the one across side `s`
(meaningful when `X` is an endpoint of `s`). -/
def adj_on (X : Corner) (s : Side) : Adjacent :=
  if (get_adjacents X).1.side = s then (get_adjacents X).1 else (get_adjacents X).2

/-- Of the two adjacency entries of corner `X`, the one across the side other
than `s` (meaningful when `X` is an endpoint of `s`). -/
def adj_off (X : Corner) (s : Side) : Adjacent :=
  if (get_adjacents X).1.side = s then (get_adjacents X).2 else (get_adjacents X).1

/-- The sorted item list the distributor's loop iterates over. -/
def dist_items (rectangle : RoundedRectangle α) : List (Corner × α) :=
  (CornerRadiusMap.new rectangle).get_items

/-- The state of the two maps after the first `k` loop iterations of
`distribute_and_normalize`. -/
def state_after (rectangle : RoundedRectangle α) (k : ℕ) :
    Budget α × CornerRadiusMap α :=
  ((dist_items rectangle).take k).foldl (process_corner rectangle)
    (Budget.new, CornerRadiusMap.new rectangle)

/-- Corner `X`'s budget minimum is attained on side `s`: at the loop iteration
that processes `X`, the `calc_budget` value across `s` is at most the
`calc_budget` value across `X`'s other side (so `X` is not constrained by its
opposite edge). -/
def attained_on (rectangle : RoundedRectangle α) (X : Corner) (s : Side) : Prop :=
  ∀ k, k < (dist_items rectangle).length →
    (dist_items rectangle)[k]? = some (X, (CornerRadiusMap.new rectangle).get X) →
    calc_budget rectangle (state_after rectangle k).1 (state_after rectangle k).2
        ((CornerRadiusMap.new rectangle).get X) (adj_on X s) ≤
      calc_budget rectangle (state_after rectangle k).1 (state_after rectangle k).2
        ((CornerRadiusMap.new rectangle).get X) (adj_off X s)

/-- Invariant of the distributor's state: every corner's budget is either
still the `-1` sentinel or lies between `0` and the lengths of both of the
corner's adjacent sides, and every entry of the radius map is non-negative. -/
def DistInv (rectangle : RoundedRectangle α) (st : Budget α × CornerRadiusMap α) : Prop :=
  ∀ X : Corner,
    (st.1.get X = -1 ∨
      (0 ≤ st.1.get X ∧ st.1.get X ≤ side_len rectangle (get_adjacents X).1.side ∧
        st.1.get X ≤ side_len rectangle (get_adjacents X).2.side)) ∧
    0 ≤ st.2.get X

/-! ### draw.rs -/

/-- Derived geometry of one corner (struct `CornerPathParams`). -/
structure CornerPathParams where
  a : ℝ
  b : ℝ
  c : ℝ
  d : ℝ
  p : ℝ
  corner_radius : ℝ
  arc_section_length : ℝ

/-- Input of the corner curve calculator (struct `CornerParams`). -/
structure CornerParams where
  corner_radius : ℝ
  corner_smoothing : ℝ
  preserve_smoothing : Bool
  rounding_and_smoothing_budget : ℝ

/-- Degree-to-radian conversion (`to_radians`). -/
noncomputable def to_radians (degrees : ℝ) : ℝ := degrees * Real.pi / 180

/-- The corner curve calculator (`get_path_params_for_corner`).  The mutable
locals of the source are modelled by shadowing: `corner_smoothing` and `p` are
first computed from the inputs, then (in the non-preserve branch) replaced by
their clamped values, and in the preserve branch `a`, `b`, `p` are replaced
when the budget is exceeded.  Note on division by zero: the source divides
`rounding_and_smoothing_budget / corner_radius` without a zero guard; in this
embedding `x / 0 = 0` whereas IEEE gives `±inf`/NaN there — both conventions
make `min corner_smoothing (… - 1)` a value that is subsequently multiplied
only into terms carrying the factor `corner_radius = 0`, so every output field
coincides with the source's on that case. -/
noncomputable def get_path_params_for_corner (corner_params : CornerParams) :
    CornerPathParams :=
  let corner_radius := corner_params.corner_radius
  let preserve_smoothing := corner_params.preserve_smoothing
  let rounding_and_smoothing_budget := corner_params.rounding_and_smoothing_budget
  let corner_smoothing :=
    if preserve_smoothing then corner_params.corner_smoothing
    else
      let max_corner_smoothing := rounding_and_smoothing_budget / corner_radius - 1
      min corner_params.corner_smoothing max_corner_smoothing
  let p :=
    if preserve_smoothing then (1 + corner_params.corner_smoothing) * corner_radius
    else min ((1 + corner_params.corner_smoothing) * corner_radius)
      rounding_and_smoothing_budget
  let arc_measure := 90 * (1 - corner_smoothing)
  let arc_section_length :=
    Real.sin (to_radians (arc_measure / 2)) * corner_radius * Real.sqrt 2
  let angle_alpha := (90 - arc_measure) / 2
  let p3_to_p4_distance := corner_radius * Real.tan (to_radians (angle_alpha / 2))
  let angle_beta := 45 * corner_smoothing
  let angle_beta_rad := to_radians angle_beta
  let c := p3_to_p4_distance * Real.cos angle_beta_rad
  let d := c * Real.tan angle_beta_rad
  let b := (p - arc_section_length - c - d) / 3
  let a := 2 * b
  if preserve_smoothing ∧ rounding_and_smoothing_budget < p then
    let p1_to_p3_max_distance := rounding_and_smoothing_budget - d - arc_section_length - c
    let min_a := p1_to_p3_max_distance / 6
    let max_b := p1_to_p3_max_distance - min_a
    let b2 := min b max_b
    let a2 := p1_to_p3_max_distance - b2
    ⟨a2, b2, c, d, min p rounding_and_smoothing_budget, corner_radius, arc_section_length⟩
  else
    ⟨a, b, c, d, p, corner_radius, arc_section_length⟩

/-- Input of the path assembler (struct `SVGPathInput`). -/
structure SVGPathInput where
  width : ℝ
  height : ℝ
  top_right_path_params : CornerPathParams
  bottom_right_path_params : CornerPathParams
  bottom_left_path_params : CornerPathParams
  top_left_path_params : CornerPathParams

/-- Tokens of `draw_top_right_path`; the emitted string is these tokens joined
by single spaces, exactly as the `format!` template lays them out.  `fmt`
stands for the `{:.4}` formatting of one `f64`; bare `"0"` and `"1"` tokens
are the literal characters of the template. -/
noncomputable def draw_top_right_tokens (fmt : ℝ → String)
    (path_params : CornerPathParams) : List String :=
  let ⟨a, b, c, d, p, corner_radius, arc_section_length⟩ := path_params
  if 0 < corner_radius then
    ["c", fmt a, "0", fmt (a + b), "0", fmt (a + b + c), fmt d,
     "a", fmt corner_radius, fmt corner_radius, "0", "0", "1",
     fmt arc_section_length, fmt arc_section_length,
     "c", fmt d, fmt c, fmt d, fmt (b + c), fmt d, fmt (a + b + c)]
  else
    ["l", fmt p, "0"]

/-- Tokens of `draw_bottom_right_path`. -/
noncomputable def draw_bottom_right_tokens (fmt : ℝ → String)
    (path_params : CornerPathParams) : List String :=
  let ⟨a, b, c, d, p, corner_radius, arc_section_length⟩ := path_params
  if 0 < corner_radius then
    ["c", "0", fmt a, "0", fmt (a + b), fmt (-d), fmt (a + b + c),
     "a", fmt corner_radius, fmt corner_radius, "0", "0", "1",
     fmt (-arc_section_length), fmt arc_section_length,
     "c", fmt (-c), fmt d, fmt (-(b + c)), fmt d, fmt (-(a + b + c)), fmt d]
  else
    ["l", "0", fmt p]

/-- Tokens of `draw_bottom_left_path`. -/
noncomputable def draw_bottom_left_tokens (fmt : ℝ → String)
    (path_params : CornerPathParams) : List String :=
  let ⟨a, b, c, d, p, corner_radius, arc_section_length⟩ := path_params
  if 0 < corner_radius then
    ["c", fmt (-a), "0", fmt (-(a + b)), "0", fmt (-(a + b + c)), fmt (-d),
     "a", fmt corner_radius, fmt corner_radius, "0", "0", "1",
     fmt (-arc_section_length), fmt (-arc_section_length),
     "c", fmt (-d), fmt (-c), fmt (-d), fmt (-(b + c)), fmt (-d), fmt (-(a + b + c))]
  else
    ["l", fmt (-p), "0"]

/-- Tokens of `draw_top_left_path`. -/
noncomputable def draw_top_left_tokens (fmt : ℝ → String)
    (path_params : CornerPathParams) : List String :=
  let ⟨a, b, c, d, p, corner_radius, arc_section_length⟩ := path_params
  if 0 < corner_radius then
    ["c", "0", fmt (-a), "0", fmt (-(a + b)), fmt d, fmt (-(a + b + c)),
     "a", fmt corner_radius, fmt corner_radius, "0", "0", "1",
     fmt arc_section_length, fmt (-arc_section_length),
     "c", fmt c, fmt (-d), fmt (b + c), fmt (-d), fmt (a + b + c), fmt (-d)]
  else
    ["l", "0", fmt (-p)]

/-- Tokens of the full path of `get_svg_path_from_path_params`, mirroring the
outer `format!` template `M … 0 … L … … … L … … … L 0 … … Z`. -/
noncomputable def get_svg_path_tokens (fmt : ℝ → String) (input : SVGPathInput) :
    List String :=
  ["M", fmt (input.width - input.top_right_path_params.p), "0"] ++
    draw_top_right_tokens fmt input.top_right_path_params ++
    ["L", fmt input.width, fmt (input.height - input.bottom_right_path_params.p)] ++
    draw_bottom_right_tokens fmt input.bottom_right_path_params ++
    ["L", fmt input.bottom_left_path_params.p, fmt input.height] ++
    draw_bottom_left_tokens fmt input.bottom_left_path_params ++
    ["L", "0", fmt input.top_left_path_params.p] ++
    draw_top_left_tokens fmt input.top_left_path_params ++
    ["Z"]

/-- The path assembler (`get_svg_path_from_path_params`): the SVG path string. -/
noncomputable def get_svg_path_from_path_params (fmt : ℝ → String)
    (input : SVGPathInput) : String :=
  " ".intercalate (get_svg_path_tokens fmt input)

/-! ### lib.rs -/

/-- The public parameter set (struct `SquircleParams`). -/
structure SquircleParams where
  width : ℝ
  height : ℝ
  corner_smoothing : ℝ
  corner_radius : Option ℝ
  top_left_corner_radius : Option ℝ
  top_right_corner_radius : Option ℝ
  bottom_right_corner_radius : Option ℝ
  bottom_left_corner_radius : Option ℝ
  preserve_smoothing : Option Bool

/-- The public entry point (`get_svg_path`): resolve the optional radii, take
the uniform fast path when the four resolved radii are equal, otherwise run
the budget distributor and the per-corner pipeline. -/
noncomputable def get_svg_path (fmt : ℝ → String) (params : SquircleParams) : String :=
  let width := params.width
  let height := params.height
  let corner_smoothing := params.corner_smoothing
  let corner_radius := params.corner_radius.getD 0
  let top_left_corner_radius := params.top_left_corner_radius.getD corner_radius
  let top_right_corner_radius := params.top_right_corner_radius.getD corner_radius
  let bottom_left_corner_radius := params.bottom_left_corner_radius.getD corner_radius
  let bottom_right_corner_radius := params.bottom_right_corner_radius.getD corner_radius
  let preserve_smoothing := params.preserve_smoothing.getD false
  if top_left_corner_radius = top_right_corner_radius ∧
      top_right_corner_radius = bottom_right_corner_radius ∧
      bottom_right_corner_radius = bottom_left_corner_radius ∧
      bottom_left_corner_radius = top_left_corner_radius then
    let rounding_and_smoothing_budget := min width height / 2
    let corner_radius2 := min top_left_corner_radius rounding_and_smoothing_budget
    let path_params := get_path_params_for_corner
      ⟨corner_radius2, corner_smoothing, preserve_smoothing, rounding_and_smoothing_budget⟩
    get_svg_path_from_path_params fmt
      ⟨width, height, path_params, path_params, path_params, path_params⟩
  else
    let nc := distribute_and_normalize
      ⟨top_left_corner_radius, top_right_corner_radius, bottom_right_corner_radius,
       bottom_left_corner_radius, width, height⟩
    get_svg_path_from_path_params fmt
      ⟨width, height,
       get_path_params_for_corner ⟨nc.top_right.radius, corner_smoothing,
         preserve_smoothing, nc.top_right.rounding_and_smoothing_budget⟩,
       get_path_params_for_corner ⟨nc.bottom_right.radius, corner_smoothing,
         preserve_smoothing, nc.bottom_right.rounding_and_smoothing_budget⟩,
       get_path_params_for_corner ⟨nc.bottom_left.radius, corner_smoothing,
         preserve_smoothing, nc.bottom_left.rounding_and_smoothing_budget⟩,
       get_path_params_for_corner ⟨nc.top_left.radius, corner_smoothing,
         preserve_smoothing, nc.top_left.rounding_and_smoothing_budget⟩⟩

/-- Token list of the string `get_svg_path` returns: same resolution and
branch structure, with the final string being these tokens joined by single
spaces (see `get_svg_path_eq_tokens`). -/
noncomputable def get_svg_path_out_tokens (fmt : ℝ → String) (params : SquircleParams) :
    List String :=
  let width := params.width
  let height := params.height
  let corner_smoothing := params.corner_smoothing
  let corner_radius := params.corner_radius.getD 0
  let top_left_corner_radius := params.top_left_corner_radius.getD corner_radius
  let top_right_corner_radius := params.top_right_corner_radius.getD corner_radius
  let bottom_left_corner_radius := params.bottom_left_corner_radius.getD corner_radius
  let bottom_right_corner_radius := params.bottom_right_corner_radius.getD corner_radius
  let preserve_smoothing := params.preserve_smoothing.getD false
  if top_left_corner_radius = top_right_corner_radius ∧
      top_right_corner_radius = bottom_right_corner_radius ∧
      bottom_right_corner_radius = bottom_left_corner_radius ∧
      bottom_left_corner_radius = top_left_corner_radius then
    let rounding_and_smoothing_budget := min width height / 2
    let corner_radius2 := min top_left_corner_radius rounding_and_smoothing_budget
    let path_params := get_path_params_for_corner
      ⟨corner_radius2, corner_smoothing, preserve_smoothing, rounding_and_smoothing_budget⟩
    get_svg_path_tokens fmt
      ⟨width, height, path_params, path_params, path_params, path_params⟩
  else
    let nc := distribute_and_normalize
      ⟨top_left_corner_radius, top_right_corner_radius, bottom_right_corner_radius,
       bottom_left_corner_radius, width, height⟩
    get_svg_path_tokens fmt
      ⟨width, height,
       get_path_params_for_corner ⟨nc.top_right.radius, corner_smoothing,
         preserve_smoothing, nc.top_right.rounding_and_smoothing_budget⟩,
       get_path_params_for_corner ⟨nc.bottom_right.radius, corner_smoothing,
         preserve_smoothing, nc.bottom_right.rounding_and_smoothing_budget⟩,
       get_path_params_for_corner ⟨nc.bottom_left.radius, corner_smoothing,
         preserve_smoothing, nc.bottom_left.rounding_and_smoothing_budget⟩,
       get_path_params_for_corner ⟨nc.top_left.radius, corner_smoothing,
         preserve_smoothing, nc.top_left.rounding_and_smoothing_budget⟩⟩

/-! ### Numeric semantics of the emitted commands

The current-point semantics of the SVG mini-language the strings use: `M`
moves absolutely and opens the subpath, `L` is an absolute line, the relative
commands `l`, `c`, `a` displace the current point by their endpoint delta
(control points and arc parameters do not move the current point), and `Z`
draws the closing segment back to the subpath start. -/

/-- One drawing command, reduced to its effect on the current point. -/
inductive PathStep where
  | move (pt : ℝ × ℝ)
  | lineAbs (pt : ℝ × ℝ)
  | rel (delta : ℝ × ℝ)
  | close

/-- Trace state: current point and subpath start point. -/
structure TracePos where
  cur : ℝ × ℝ
  start : ℝ × ℝ

/-- Effect of one command on the trace state. -/
def step_trace (st : TracePos) : PathStep → TracePos
  | PathStep.move pt => ⟨pt, pt⟩
  | PathStep.lineAbs pt => ⟨pt, st.start⟩
  | PathStep.rel delta => ⟨(st.cur.1 + delta.1, st.cur.2 + delta.2), st.start⟩
  | PathStep.close => ⟨st.start, st.start⟩

/-- Run a command list from a given trace state. -/
def run_trace (st : TracePos) (l : List PathStep) : TracePos :=
  l.foldl step_trace st

/-- Endpoint deltas of the commands of `draw_top_right_path`: the two cubics'
endpoints and the arc endpoint when the corner is rounded, the single `l`
otherwise. -/
noncomputable def top_right_steps (pp : CornerPathParams) : List PathStep :=
  if 0 < pp.corner_radius then
    [PathStep.rel (pp.a + pp.b + pp.c, pp.d),
     PathStep.rel (pp.arc_section_length, pp.arc_section_length),
     PathStep.rel (pp.d, pp.a + pp.b + pp.c)]
  else
    [PathStep.rel (pp.p, 0)]

/-- Endpoint deltas of the commands of `draw_bottom_right_path`. -/
noncomputable def bottom_right_steps (pp : CornerPathParams) : List PathStep :=
  if 0 < pp.corner_radius then
    [PathStep.rel (-pp.d, pp.a + pp.b + pp.c),
     PathStep.rel (-pp.arc_section_length, pp.arc_section_length),
     PathStep.rel (-(pp.a + pp.b + pp.c), pp.d)]
  else
    [PathStep.rel (0, pp.p)]

/-- Endpoint deltas of the commands of `draw_bottom_left_path`. -/
noncomputable def bottom_left_steps (pp : CornerPathParams) : List PathStep :=
  if 0 < pp.corner_radius then
    [PathStep.rel (-(pp.a + pp.b + pp.c), -pp.d),
     PathStep.rel (-pp.arc_section_length, -pp.arc_section_length),
     PathStep.rel (-pp.d, -(pp.a + pp.b + pp.c))]
  else
    [PathStep.rel (-pp.p, 0)]

/-- Endpoint deltas of the commands of `draw_top_left_path`. -/
noncomputable def top_left_steps (pp : CornerPathParams) : List PathStep :=
  if 0 < pp.corner_radius then
    [PathStep.rel (pp.d, -(pp.a + pp.b + pp.c)),
     PathStep.rel (pp.arc_section_length, -pp.arc_section_length),
     PathStep.rel (pp.a + pp.b + pp.c, -pp.d)]
  else
    [PathStep.rel (0, -pp.p)]

/-- Commands of `get_svg_path_from_path_params` before the final `Z`. -/
noncomputable def svg_path_pre_steps (width height : ℝ)
    (tr br bl tl : CornerPathParams) : List PathStep :=
  [PathStep.move (width - tr.p, 0)] ++ top_right_steps tr ++
    [PathStep.lineAbs (width, height - br.p)] ++ bottom_right_steps br ++
    [PathStep.lineAbs (bl.p, height)] ++ bottom_left_steps bl ++
    [PathStep.lineAbs (0, tl.p)] ++ top_left_steps tl

/-- All commands of `get_svg_path_from_path_params`, including the final `Z`. -/
noncomputable def svg_path_steps (width height : ℝ)
    (tr br bl tl : CornerPathParams) : List PathStep :=
  svg_path_pre_steps width height tr br bl tl ++ [PathStep.close]

/-- Command sequence emitted by `get_svg_path`: same branch structure and the
same per-corner parameters as `get_svg_path`, with each command reduced to its
current-point effect. -/
noncomputable def get_svg_path_steps (params : SquircleParams) : List PathStep :=
  let width := params.width
  let height := params.height
  let corner_smoothing := params.corner_smoothing
  let corner_radius := params.corner_radius.getD 0
  let top_left_corner_radius := params.top_left_corner_radius.getD corner_radius
  let top_right_corner_radius := params.top_right_corner_radius.getD corner_radius
  let bottom_left_corner_radius := params.bottom_left_corner_radius.getD corner_radius
  let bottom_right_corner_radius := params.bottom_right_corner_radius.getD corner_radius
  let preserve_smoothing := params.preserve_smoothing.getD false
  if top_left_corner_radius = top_right_corner_radius ∧
      top_right_corner_radius = bottom_right_corner_radius ∧
      bottom_right_corner_radius = bottom_left_corner_radius ∧
      bottom_left_corner_radius = top_left_corner_radius then
    let rounding_and_smoothing_budget := min width height / 2
    let corner_radius2 := min top_left_corner_radius rounding_and_smoothing_budget
    let path_params := get_path_params_for_corner
      ⟨corner_radius2, corner_smoothing, preserve_smoothing, rounding_and_smoothing_budget⟩
    svg_path_steps width height path_params path_params path_params path_params
  else
    let nc := distribute_and_normalize
      ⟨top_left_corner_radius, top_right_corner_radius, bottom_right_corner_radius,
       bottom_left_corner_radius, width, height⟩
    svg_path_steps width height
      (get_path_params_for_corner ⟨nc.top_right.radius, corner_smoothing,
        preserve_smoothing, nc.top_right.rounding_and_smoothing_budget⟩)
      (get_path_params_for_corner ⟨nc.bottom_right.radius, corner_smoothing,
        preserve_smoothing, nc.bottom_right.rounding_and_smoothing_budget⟩)
      (get_path_params_for_corner ⟨nc.bottom_left.radius, corner_smoothing,
        preserve_smoothing, nc.bottom_left.rounding_and_smoothing_budget⟩)
      (get_path_params_for_corner ⟨nc.top_left.radius, corner_smoothing,
        preserve_smoothing, nc.top_left.rounding_and_smoothing_budget⟩)

/-! ### NaN-aware model of the radius sort

`f64` values with NaN are modelled as `Option ℝ` (`none` is NaN).  Only the
pieces of the code whose behaviour depends on NaN are re-modelled here: the
four-way `==` chain that guards the uniform fast path of `get_svg_path`, and
the descending radius sort of `CornerRadiusMap::get_items`, whose comparator
calls `partial_cmp(..).unwrap()` — the `unwrap` panics exactly when a NaN is
compared, which this model represents by returning `none`. -/

/-- Rust `f64` equality: NaN is not equal to anything, including itself. -/
noncomputable def fp_eq (x y : Option ℝ) : Bool :=
  match x, y with
  | some a, some b => decide (a = b)
  | _, _ => false

/-- Rust `partial_cmp` on `f64`: `none` when either operand is NaN. -/
noncomputable def fp_compare (x y : Option ℝ) : Option Ordering :=
  match x, y with
  | some a, some b => some (compare a b)
  | _, _ => none

/-- Stable descending insertion with the panicking comparator
`radius2.partial_cmp(radius1).unwrap()`: comparing against a NaN aborts
(result `none`), mirroring the `unwrap` panic. -/
noncomputable def ordered_insert_checked (x : Corner × Option ℝ) :
    List (Corner × Option ℝ) → Option (List (Corner × Option ℝ))
  | [] => some [x]
  | y :: l =>
    match fp_compare y.2 x.2 with
    | none => none
    | some ord =>
      if ord ≠ Ordering.gt then some (x :: y :: l)
      else (ordered_insert_checked x l).map (y :: ·)

/-- The stable sort of `CornerRadiusMap::get_items` with panic propagation. -/
noncomputable def sort_desc_checked :
    List (Corner × Option ℝ) → Option (List (Corner × Option ℝ))
  | [] => some []
  | x :: l => (sort_desc_checked l).bind (ordered_insert_checked x)

/-- `CornerRadiusMap::get_items` over NaN-aware radii: `none` when the sort's
`unwrap` panics. -/
noncomputable def get_items_checked (tl tr bl br : Option ℝ) :
    Option (List (Corner × Option ℝ)) :=
  sort_desc_checked [(Corner.topLeft, tl), (Corner.topRight, tr),
                     (Corner.bottomLeft, bl), (Corner.bottomRight, br)]

/-- The four-way equality chain of `get_svg_path` that selects the uniform
fast path, over NaN-aware radii. -/
noncomputable def uniform_radius_test (tl tr br bl : Option ℝ) : Bool :=
  fp_eq tl tr && fp_eq tr br && fp_eq br bl && fp_eq bl tl

/-! ### Fixed-precision formatting model (for the output-format claim)

Rust's `{:.4}` formatting of a finite `f64` produces an optional minus sign,
at least one integer digit, a dot, and exactly four fractional digits.  The
predicate below characterizes such strings; the format claim is stated for
every formatting function whose outputs satisfy it. -/

/-- A string consisting of an optional minus sign, one or more digits, a dot,
and exactly four digits: the shape of `{:.4}` output for a finite `f64`.
(The characters before the first dot must be digits or a sign, the characters
after it exactly four digits — in particular no second dot.) -/
def is_fixed_4dp (s : String) : Bool :=
  let cs := s.toList
  let intPart := cs.takeWhile (· != '.')
  match cs.dropWhile (· != '.') with
  | '.' :: fracPart =>
    decide (fracPart.length = 4) && fracPart.all Char.isDigit &&
      decide (intPart ≠ []) && intPart.all (fun ch => ch.isDigit || ch == '-')
  | _ => false

/-- The command-letter tokens of the path mini-language. -/
def is_command_token (s : String) : Bool :=
  s == "M" || s == "L" || s == "l" || s == "c" || s == "a" || s == "Z"

/-- A formatting function standing in for `{:.4}` in concrete computations:
constantly `"0.0000"` (a legitimate fixed-4 formatter output shape). -/
def fmt0 : ℝ → String := fun _ => "0.0000"

/-- Concrete input for the format counterexample: a 100×100 square, all radii
left unset (so every resolved radius is the default `0`). -/
def c9_input : SquircleParams :=
  ⟨100, 100, 0, none, none, none, none, none, none⟩

/-! ### Theorems -/

/-- Structural identity of the corner curve calculator: in every branch the
four control distances plus the arc section length add up to the returned `p`,
so a rounded corner's commands displace the current point by exactly `(±p, ±p)`. -/
theorem get_path_params_sum (cp : CornerParams) :
    (get_path_params_for_corner cp).a + (get_path_params_for_corner cp).b +
      (get_path_params_for_corner cp).c + (get_path_params_for_corner cp).d +
      (get_path_params_for_corner cp).arc_section_length =
    (get_path_params_for_corner cp).p := by
  cases hps : cp.preserve_smoothing with
  | false =>
    simp only [get_path_params_for_corner, hps, Bool.false_eq_true, false_and, if_false]
    ring
  | true =>
    by_cases hlt : cp.rounding_and_smoothing_budget <
        (1 + cp.corner_smoothing) * cp.corner_radius
    · simp only [get_path_params_for_corner, hps, eq_self_iff_true, if_true, true_and,
        if_pos hlt]
      rw [min_eq_right hlt.le]
      ring
    · simp only [get_path_params_for_corner, hps, eq_self_iff_true, if_true, true_and,
        if_neg hlt]
      ring

/-- Radius zero sends the whole corner parameter record to zero (for any
smoothing, any flag, and any non-negative budget). -/
theorem get_path_params_zero_radius (cp : CornerParams) (h0 : cp.corner_radius = 0)
    (hb : 0 ≤ cp.rounding_and_smoothing_budget) :
    get_path_params_for_corner cp = ⟨0, 0, 0, 0, 0, 0, 0⟩ := by
  cases hps : cp.preserve_smoothing with
  | false =>
    simp only [get_path_params_for_corner, hps, Bool.false_eq_true, false_and, if_false,
      h0, mul_zero, zero_mul]
    rw [min_eq_left hb]
    norm_num
  | true =>
    simp only [get_path_params_for_corner, hps, eq_self_iff_true, if_true, true_and,
      h0, mul_zero, zero_mul]
    rw [if_neg (not_lt.mpr hb)]
    norm_num

/-- C5: for every call to `get_path_params_for_corner` with non-negative
radius, smoothing and budget, the returned `p` satisfies `0 ≤ p ≤ budget`;
in particular with `preserve_smoothing` enabled `p` never exceeds the
assigned `rounding_and_smoothing_budget`. -/
theorem c5_p_within_budget (cp : CornerParams) (hr : 0 ≤ cp.corner_radius)
    (hs : 0 ≤ cp.corner_smoothing) (hb : 0 ≤ cp.rounding_and_smoothing_budget) :
    0 ≤ (get_path_params_for_corner cp).p ∧
      (get_path_params_for_corner cp).p ≤ cp.rounding_and_smoothing_budget := by
  have hp0 : 0 ≤ (1 + cp.corner_smoothing) * cp.corner_radius :=
    mul_nonneg (by linarith) hr
  cases hps : cp.preserve_smoothing with
  | false =>
    simp only [get_path_params_for_corner, hps, Bool.false_eq_true, false_and, if_false]
    exact ⟨le_min hp0 hb, min_le_right _ _⟩
  | true =>
    by_cases hlt : cp.rounding_and_smoothing_budget <
        (1 + cp.corner_smoothing) * cp.corner_radius
    · simp only [get_path_params_for_corner, hps, eq_self_iff_true, if_true, true_and,
        if_pos hlt]
      exact ⟨le_min hp0 hb, min_le_right _ _⟩
    · simp only [get_path_params_for_corner, hps, eq_self_iff_true, if_true, true_and,
        if_neg hlt]
      exact ⟨hp0, not_lt.mp hlt⟩

/-- Witness for C5 at a concrete input where the budget genuinely clamps
(`radius 20`, `smoothing 0.8`, `preserve_smoothing` on, `budget 10`). -/
theorem c5_p_within_budget_witness :
    (0:ℝ) ≤ 20 ∧ (0:ℝ) ≤ 0.8 ∧ (0:ℝ) ≤ 10 ∧
      (0 ≤ (get_path_params_for_corner ⟨20, 0.8, true, 10⟩).p ∧
        (get_path_params_for_corner ⟨20, 0.8, true, 10⟩).p ≤ 10) :=
  ⟨by norm_num, by norm_num, by norm_num,
    c5_p_within_budget ⟨20, 0.8, true, 10⟩ (by norm_num) (by norm_num) (by norm_num)⟩

/-- C6: with `corner_radius = 0` (any smoothing `≥ 0`, any budget `≥ 0`, both
values of `preserve_smoothing`) the calculator returns `p = 0` and all four
control distances `a`, `b`, `c`, `d` equal to `0`, even though the
non-preserve branch divides the budget by the zero radius. -/
theorem c6_zero_radius_degenerate (smoothing budget : ℝ) (preserve : Bool)
    (hs : 0 ≤ smoothing) (hb : 0 ≤ budget) :
    (get_path_params_for_corner ⟨0, smoothing, preserve, budget⟩).p = 0 ∧
      (get_path_params_for_corner ⟨0, smoothing, preserve, budget⟩).a = 0 ∧
      (get_path_params_for_corner ⟨0, smoothing, preserve, budget⟩).b = 0 ∧
      (get_path_params_for_corner ⟨0, smoothing, preserve, budget⟩).c = 0 ∧
      (get_path_params_for_corner ⟨0, smoothing, preserve, budget⟩).d = 0 := by
  rw [get_path_params_zero_radius ⟨0, smoothing, preserve, budget⟩ rfl hb]
  exact ⟨rfl, rfl, rfl, rfl, rfl⟩

/-- Witness for C6 (`smoothing 0.6`, `budget 50`, non-preserve branch, which
is the branch computing `budget / 0`). -/
theorem c6_zero_radius_degenerate_witness :
    (0:ℝ) ≤ 0.6 ∧ (0:ℝ) ≤ 50 ∧
      ((get_path_params_for_corner ⟨0, 0.6, false, 50⟩).p = 0 ∧
        (get_path_params_for_corner ⟨0, 0.6, false, 50⟩).a = 0 ∧
        (get_path_params_for_corner ⟨0, 0.6, false, 50⟩).b = 0 ∧
        (get_path_params_for_corner ⟨0, 0.6, false, 50⟩).c = 0 ∧
        (get_path_params_for_corner ⟨0, 0.6, false, 50⟩).d = 0) :=
  ⟨by norm_num, by norm_num,
    c6_zero_radius_degenerate 0.6 50 false (by norm_num) (by norm_num)⟩

/-- C8: on the concrete rectangle `width 40`, `height 100` with top radii `40`
and bottom radii `0`, the distributor clamps both top corners to radius `20`
with budget `20` along the shared top edge. -/
theorem c8_top_radii_clamped :
    (distribute_and_normalize
        (⟨40, 40, 0, 0, 40, 100⟩ : RoundedRectangle ℚ)).top_left.radius = 20 ∧
      (distribute_and_normalize
        (⟨40, 40, 0, 0, 40, 100⟩ : RoundedRectangle ℚ)).top_right.radius = 20 ∧
      (distribute_and_normalize
        (⟨40, 40, 0, 0, 40, 100⟩ :
          RoundedRectangle ℚ)).top_left.rounding_and_smoothing_budget = 20 ∧
      (distribute_and_normalize
        (⟨40, 40, 0, 0, 40, 100⟩ :
          RoundedRectangle ℚ)).top_right.rounding_and_smoothing_budget = 20 := by
  norm_num [distribute_and_normalize, CornerRadiusMap.get_items, CornerRadiusMap.new,
    sort_desc, ordered_insert_desc, process_corner, calc_budget, Budget.new, Budget.get,
    Budget.set, CornerRadiusMap.get, CornerRadiusMap.set, get_adjacents, side_len]

/-- Stable descending insertion permutes its input. -/
theorem ordered_insert_desc_perm (x : Corner × α) (l : List (Corner × α)) :
    (ordered_insert_desc x l).Perm (x :: l) := by
  induction l with
  | nil => exact List.Perm.refl _
  | cons y l ih =>
    simp only [ordered_insert_desc]
    split
    · exact List.Perm.refl _
    · exact (ih.cons y).trans (List.Perm.swap x y l)

/-- The stable descending sort permutes its input. -/
theorem sort_desc_perm (l : List (Corner × α)) : (sort_desc l).Perm l := by
  induction l with
  | nil => exact List.Perm.refl _
  | cons x l ih => exact (ordered_insert_desc_perm x (sort_desc l)).trans (ih.cons x)

/-- The distributor's item list is a permutation of the four corners paired
with their raw radii. -/
theorem dist_items_perm (rect : RoundedRectangle α) :
    (dist_items rect).Perm
      [(Corner.topLeft, rect.top_left_corner_radius),
       (Corner.topRight, rect.top_right_corner_radius),
       (Corner.bottomLeft, rect.bottom_left_corner_radius),
       (Corner.bottomRight, rect.bottom_right_corner_radius)] :=
  sort_desc_perm _

/-- Every corner occurs in the item list, paired with its raw radius. -/
theorem dist_items_mem (rect : RoundedRectangle α) (X : Corner) :
    (X, (CornerRadiusMap.new rect).get X) ∈ dist_items rect := by
  refine (dist_items_perm rect).mem_iff.mpr ?_
  cases X <;> simp [CornerRadiusMap.new, CornerRadiusMap.get]

/-- With non-negative input radii, every item radius is non-negative. -/
theorem dist_items_nonneg (rect : RoundedRectangle α)
    (h1 : 0 ≤ rect.top_left_corner_radius) (h2 : 0 ≤ rect.top_right_corner_radius)
    (h3 : 0 ≤ rect.bottom_right_corner_radius)
    (h4 : 0 ≤ rect.bottom_left_corner_radius) :
    ∀ it ∈ dist_items rect, 0 ≤ it.2 := by
  intro it hit
  have hmem := (dist_items_perm rect).mem_iff.mp hit
  simp only [List.mem_cons, List.not_mem_nil, or_false] at hmem
  rcases hmem with h | h | h | h <;> subst h <;> assumption

/-- The corners of the item list are pairwise distinct. -/
theorem dist_items_fst_nodup (rect : RoundedRectangle α) :
    ((dist_items rect).map Prod.fst).Nodup := by
  have hp := (dist_items_perm rect).map Prod.fst
  refine hp.nodup_iff.mpr ?_
  simp only [List.map_cons, List.map_nil]
  decide

/-- Processing one corner leaves every other corner's budget and radius
untouched. -/
theorem process_corner_get_ne (rect : RoundedRectangle α)
    (st : Budget α × CornerRadiusMap α) (Y : Corner) (ρ : α) (X : Corner) (hne : X ≠ Y) :
    (process_corner rect st (Y, ρ)).1.get X = st.1.get X ∧
      (process_corner rect st (Y, ρ)).2.get X = st.2.get X := by
  cases X <;> cases Y <;> simp_all [process_corner, Budget.get, Budget.set,
    CornerRadiusMap.get, CornerRadiusMap.set]

/-- Processing a corner records `min` of the two side-derived budgets and the
radius clamped to that budget. -/
theorem process_corner_get_self (rect : RoundedRectangle α)
    (st : Budget α × CornerRadiusMap α) (X : Corner) (ρ : α) :
    (process_corner rect st (X, ρ)).1.get X =
        min (calc_budget rect st.1 st.2 ρ (get_adjacents X).1)
          (calc_budget rect st.1 st.2 ρ (get_adjacents X).2) ∧
      (process_corner rect st (X, ρ)).2.get X =
        min ρ
          (min (calc_budget rect st.1 st.2 ρ (get_adjacents X).1)
            (calc_budget rect st.1 st.2 ρ (get_adjacents X).2)) := by
  cases X <;> simp [process_corner, Budget.get, Budget.set, CornerRadiusMap.get,
    CornerRadiusMap.set]

/-- Folding over items that never mention corner `X` leaves `X`'s entries
untouched. -/
theorem fold_get_not_mem (rect : RoundedRectangle α) (l : List (Corner × α))
    (st : Budget α × CornerRadiusMap α) (X : Corner) (hX : ∀ it ∈ l, it.1 ≠ X) :
    (l.foldl (process_corner rect) st).1.get X = st.1.get X ∧
      (l.foldl (process_corner rect) st).2.get X = st.2.get X := by
  induction l generalizing st with
  | nil => exact ⟨rfl, rfl⟩
  | cons it l ih =>
    obtain ⟨Y, ρ⟩ := it
    have hne : X ≠ Y := (hX (Y, ρ) (List.mem_cons_self _ _)).symm
    have h1 := process_corner_get_ne rect st Y ρ X hne
    simp only [List.foldl_cons]
    have h2 := ih (process_corner rect st (Y, ρ))
      (fun it hit => hX it (List.mem_cons_of_mem _ hit))
    exact ⟨h2.1.trans h1.1, h2.2.trans h1.2⟩

/-- Adjacency back-reference: the side shared with an adjacent corner is one
of that corner's own two adjacent sides. -/
theorem adj_back (X : Corner) :
    ((get_adjacents X).1.side = (get_adjacents (get_adjacents X).1.corner).1.side ∨
      (get_adjacents X).1.side = (get_adjacents (get_adjacents X).1.corner).2.side) ∧
    ((get_adjacents X).2.side = (get_adjacents (get_adjacents X).2.corner).1.side ∨
      (get_adjacents X).2.side = (get_adjacents (get_adjacents X).2.corner).2.side) := by
  cases X <;> simp [get_adjacents]

/-- Bounds of one `calc_budget` value under the state invariant: it lies
between `0` and the length of the shared side. -/
theorem calc_budget_bounds (rect : RoundedRectangle α)
    (st : Budget α × CornerRadiusMap α) (ρ : α) (adj : Adjacent)
    (hw : 0 ≤ rect.width) (hh : 0 ≤ rect.height) (hinv : DistInv rect st) (hρ : 0 ≤ ρ)
    (hback : adj.side = (get_adjacents adj.corner).1.side ∨
      adj.side = (get_adjacents adj.corner).2.side) :
    0 ≤ calc_budget rect st.1 st.2 ρ adj ∧
      calc_budget rect st.1 st.2 ρ adj ≤ side_len rect adj.side := by
  have hside : 0 ≤ side_len rect adj.side := by
    cases adj.side <;> simp [side_len, hw, hh]
  simp only [calc_budget]
  split
  · exact ⟨le_refl 0, hside⟩
  · rename_i hzero
    split
    · rename_i hb
      obtain ⟨hbud, _⟩ := hinv adj.corner
      rcases hbud with hneg | ⟨hb0, hb1, hb2⟩
      · rw [hneg] at hb
        exact absurd hb (by norm_num)
      · have hble : st.1.get adj.corner ≤ side_len rect adj.side := by
          rcases hback with hsd | hsd
          · rw [hsd]; exact hb1
          · rw [hsd]; exact hb2
        exact ⟨by linarith, by linarith⟩
    · rename_i hb
      have hcr : 0 ≤ st.2.get adj.corner := (hinv adj.corner).2
      have hsum : 0 < ρ + st.2.get adj.corner := by
        rcases eq_or_lt_of_le hρ with h0 | h0
        · rcases eq_or_lt_of_le hcr with hc0 | hc0
          · exact absurd ⟨h0.symm, hc0.symm⟩ hzero
          · linarith
        · linarith
      refine ⟨mul_nonneg (div_nonneg hρ hsum.le) hside, ?_⟩
      have hdle : ρ / (ρ + st.2.get adj.corner) ≤ 1 :=
        (div_le_one hsum).mpr (by linarith)
      exact mul_le_of_le_one_left hside hdle

/-- When the current radius is non-zero and the adjacent corner has an
assigned (non-negative) budget, `calc_budget` takes the leftover branch. -/
theorem calc_budget_leftover (rect : RoundedRectangle α)
    (st : Budget α × CornerRadiusMap α) (ρ : α) (adj : Adjacent) (hρ : ρ ≠ 0)
    (hb : 0 ≤ st.1.get adj.corner) :
    calc_budget rect st.1 st.2 ρ adj = side_len rect adj.side - st.1.get adj.corner := by
  simp only [calc_budget]
  rw [if_neg (fun hc => hρ hc.1), if_pos hb]

/-- One processing step preserves the state invariant. -/
theorem process_corner_inv (rect : RoundedRectangle α)
    (hw : 0 ≤ rect.width) (hh : 0 ≤ rect.height) (st : Budget α × CornerRadiusMap α)
    (hst : DistInv rect st) (X : Corner) (ρ : α) (hρ : 0 ≤ ρ) :
    DistInv rect (process_corner rect st (X, ρ)) := by
  intro Y
  by_cases hXY : Y = X
  · subst hXY
    obtain ⟨hb, hm⟩ := process_corner_get_self rect st Y ρ
    have hc1 := calc_budget_bounds rect st ρ (get_adjacents Y).1 hw hh hst hρ (adj_back Y).1
    have hc2 := calc_budget_bounds rect st ρ (get_adjacents Y).2 hw hh hst hρ (adj_back Y).2
    constructor
    · right
      rw [hb]
      exact ⟨le_min hc1.1 hc2.1, le_trans (min_le_left _ _) hc1.2,
        le_trans (min_le_right _ _) hc2.2⟩
    · rw [hm]
      exact le_min hρ (le_min hc1.1 hc2.1)
  · obtain ⟨hb, hm⟩ := process_corner_get_ne rect st X ρ Y hXY
    rw [hb, hm]
    exact hst Y

/-- Folding any list of non-negative-radius items preserves the invariant. -/
theorem fold_inv (rect : RoundedRectangle α) (hw : 0 ≤ rect.width)
    (hh : 0 ≤ rect.height) (l : List (Corner × α)) (st : Budget α × CornerRadiusMap α)
    (hst : DistInv rect st) (hl : ∀ it ∈ l, 0 ≤ it.2) :
    DistInv rect (l.foldl (process_corner rect) st) := by
  induction l generalizing st with
  | nil => exact hst
  | cons it l ih =>
    obtain ⟨Y, ρ⟩ := it
    simp only [List.foldl_cons]
    exact ih (process_corner rect st (Y, ρ))
      (process_corner_inv rect hw hh st hst Y ρ (hl (Y, ρ) (List.mem_cons_self _ _)))
      (fun it hit => hl it (List.mem_cons_of_mem _ hit))

/-- The initial state (all budgets sentinel, raw radii) satisfies the
invariant when the input radii are non-negative. -/
theorem dist_init_inv (rect : RoundedRectangle α)
    (h1 : 0 ≤ rect.top_left_corner_radius) (h2 : 0 ≤ rect.top_right_corner_radius)
    (h3 : 0 ≤ rect.bottom_right_corner_radius)
    (h4 : 0 ≤ rect.bottom_left_corner_radius) :
    DistInv rect (Budget.new, CornerRadiusMap.new rect) := by
  intro X
  constructor
  · left
    cases X <;> rfl
  · cases X <;> simp [CornerRadiusMap.new, CornerRadiusMap.get, h1, h2, h3, h4]

/-- Value of a corner's entries in the final state, in terms of the state
just before that corner's own processing step. -/
theorem fold_processed (rect : RoundedRectangle α) (st : Budget α × CornerRadiusMap α)
    (l₁ l₂ : List (Corner × α)) (X : Corner) (ρ : α)
    (hX2 : ∀ it ∈ l₂, it.1 ≠ X) :
    ((l₁ ++ (X, ρ) :: l₂).foldl (process_corner rect) st).1.get X =
        min
          (calc_budget rect (l₁.foldl (process_corner rect) st).1
            (l₁.foldl (process_corner rect) st).2 ρ (get_adjacents X).1)
          (calc_budget rect (l₁.foldl (process_corner rect) st).1
            (l₁.foldl (process_corner rect) st).2 ρ (get_adjacents X).2) ∧
      ((l₁ ++ (X, ρ) :: l₂).foldl (process_corner rect) st).2.get X =
        min ρ
          (min
            (calc_budget rect (l₁.foldl (process_corner rect) st).1
              (l₁.foldl (process_corner rect) st).2 ρ (get_adjacents X).1)
            (calc_budget rect (l₁.foldl (process_corner rect) st).1
              (l₁.foldl (process_corner rect) st).2 ρ (get_adjacents X).2)) := by
  rw [List.foldl_append, List.foldl_cons]
  have hself := process_corner_get_self rect (l₁.foldl (process_corner rect) st) X ρ
  have hpers := fold_get_not_mem rect l₂
    (process_corner rect (l₁.foldl (process_corner rect) st) (X, ρ)) X hX2
  exact ⟨hpers.1.trans hself.1, hpers.2.trans hself.2⟩

/-- The normalized corner read off by `distribute_and_normalize` is the final
fold state's radius/budget pair. -/
theorem distribute_eq_fold (rect : RoundedRectangle α) (X : Corner) :
    corner_norm (distribute_and_normalize rect) X =
      ⟨((dist_items rect).foldl (process_corner rect)
          (Budget.new, CornerRadiusMap.new rect)).2.get X,
       ((dist_items rect).foldl (process_corner rect)
          (Budget.new, CornerRadiusMap.new rect)).1.get X⟩ := by
  cases X <;> rfl

/-- C4: for every rectangle with non-negative width, height and radii, and
every corner: the normalized radius never exceeds the corner's raw radius,
the normalized radius never exceeds the assigned budget, and the budget never
exceeds the length of either of the corner's two adjacent sides. -/
theorem c4_normalized_invariants (rect : RoundedRectangle α)
    (hw : 0 ≤ rect.width) (hh : 0 ≤ rect.height)
    (h1 : 0 ≤ rect.top_left_corner_radius) (h2 : 0 ≤ rect.top_right_corner_radius)
    (h3 : 0 ≤ rect.bottom_right_corner_radius)
    (h4 : 0 ≤ rect.bottom_left_corner_radius) (X : Corner) :
    (corner_norm (distribute_and_normalize rect) X).radius ≤
        (CornerRadiusMap.new rect).get X ∧
      (corner_norm (distribute_and_normalize rect) X).radius ≤
        (corner_norm (distribute_and_normalize rect) X).rounding_and_smoothing_budget ∧
      (corner_norm (distribute_and_normalize rect) X).rounding_and_smoothing_budget ≤
        side_len rect (get_adjacents X).1.side ∧
      (corner_norm (distribute_and_normalize rect) X).rounding_and_smoothing_budget ≤
        side_len rect (get_adjacents X).2.side := by
  obtain ⟨l₁, l₂, hsplit⟩ := List.append_of_mem (dist_items_mem rect X)
  have hnd := dist_items_fst_nodup rect
  rw [hsplit, List.map_append, List.map_cons] at hnd
  have hX2 : ∀ it ∈ l₂, it.1 ≠ X := by
    have hnotmem := (List.nodup_cons.mp hnd.of_append_right).1
    intro it hit heq
    have hmm : it.1 ∈ l₂.map Prod.fst := List.mem_map_of_mem Prod.fst hit
    rw [heq] at hmm
    exact hnotmem hmm
  have hfold := fold_processed rect (Budget.new, CornerRadiusMap.new rect) l₁ l₂ X
    ((CornerRadiusMap.new rect).get X) hX2
  have hinv₁ : DistInv rect
      (l₁.foldl (process_corner rect) (Budget.new, CornerRadiusMap.new rect)) :=
    fold_inv rect hw hh l₁ _ (dist_init_inv rect h1 h2 h3 h4)
      (fun it hit => dist_items_nonneg rect h1 h2 h3 h4 it
        (hsplit ▸ List.mem_append_left _ hit))
  have hρ : 0 ≤ (CornerRadiusMap.new rect).get X := by
    cases X <;> simp [CornerRadiusMap.new, CornerRadiusMap.get, h1, h2, h3, h4]
  have hc1 := calc_budget_bounds rect
    (l₁.foldl (process_corner rect) (Budget.new, CornerRadiusMap.new rect))
    ((CornerRadiusMap.new rect).get X) (get_adjacents X).1 hw hh hinv₁ hρ (adj_back X).1
  have hc2 := calc_budget_bounds rect
    (l₁.foldl (process_corner rect) (Budget.new, CornerRadiusMap.new rect))
    ((CornerRadiusMap.new rect).get X) (get_adjacents X).2 hw hh hinv₁ hρ (adj_back X).2
  rw [distribute_eq_fold rect X, hsplit]
  dsimp only
  rw [hfold.1, hfold.2]
  exact ⟨min_le_left _ _, min_le_right _ _, le_trans (min_le_left _ _) hc1.2,
    le_trans (min_le_right _ _) hc2.2⟩

/-- Witness for C4 at the concrete rectangle of the C8 scenario (over `ℚ`),
top-left corner. -/
theorem c4_normalized_invariants_witness :
    (0:ℚ) ≤ 40 ∧ (0:ℚ) ≤ 100 ∧
      ((corner_norm (distribute_and_normalize
          (⟨40, 40, 0, 0, 40, 100⟩ : RoundedRectangle ℚ)) Corner.topLeft).radius ≤
        (CornerRadiusMap.new (⟨40, 40, 0, 0, 40, 100⟩ : RoundedRectangle ℚ)).get
          Corner.topLeft ∧
      (corner_norm (distribute_and_normalize
          (⟨40, 40, 0, 0, 40, 100⟩ : RoundedRectangle ℚ)) Corner.topLeft).radius ≤
        (corner_norm (distribute_and_normalize
          (⟨40, 40, 0, 0, 40, 100⟩ : RoundedRectangle ℚ))
          Corner.topLeft).rounding_and_smoothing_budget ∧
      (corner_norm (distribute_and_normalize
          (⟨40, 40, 0, 0, 40, 100⟩ : RoundedRectangle ℚ))
          Corner.topLeft).rounding_and_smoothing_budget ≤
        side_len (⟨40, 40, 0, 0, 40, 100⟩ : RoundedRectangle ℚ)
          (get_adjacents Corner.topLeft).1.side ∧
      (corner_norm (distribute_and_normalize
          (⟨40, 40, 0, 0, 40, 100⟩ : RoundedRectangle ℚ))
          Corner.topLeft).rounding_and_smoothing_budget ≤
        side_len (⟨40, 40, 0, 0, 40, 100⟩ : RoundedRectangle ℚ)
          (get_adjacents Corner.topLeft).2.side) :=
  ⟨by norm_num, by norm_num,
    c4_normalized_invariants (⟨40, 40, 0, 0, 40, 100⟩ : RoundedRectangle ℚ)
      (by norm_num) (by norm_num) (by norm_num) (by norm_num) (by norm_num) (by norm_num)
      Corner.topLeft⟩

/-- Core of budget conservation: if corner `S` (raw radius `> 0`) is processed
after its side-`s` partner `F`, and `S`'s budget minimum is attained on that
shared side, then the final budgets of `F` and `S` along `s` sum to the side
length. -/
theorem budget_pair_aux (rect : RoundedRectangle α)
    (hw : 0 ≤ rect.width) (hh : 0 ≤ rect.height)
    (h1 : 0 ≤ rect.top_left_corner_radius) (h2 : 0 ≤ rect.top_right_corner_radius)
    (h3 : 0 ≤ rect.bottom_right_corner_radius)
    (h4 : 0 ≤ rect.bottom_left_corner_radius)
    (F S : Corner) (s : Side) (hadjS : adj_on S s = ⟨F, s⟩)
    (hS0 : 0 < (CornerRadiusMap.new rect).get S) (hattS : attained_on rect S s)
    (pre suf : List (Corner × α))
    (hsplit : dist_items rect = pre ++ (S, (CornerRadiusMap.new rect).get S) :: suf)
    (hFpre : (F, (CornerRadiusMap.new rect).get F) ∈ pre) :
    (corner_norm (distribute_and_normalize rect) F).rounding_and_smoothing_budget +
      (corner_norm (distribute_and_normalize rect) S).rounding_and_smoothing_budget =
      side_len rect s := by
  have hnd := dist_items_fst_nodup rect
  rw [hsplit, List.map_append, List.map_cons] at hnd
  have hSsuf : ∀ it ∈ suf, it.1 ≠ S := by
    have hnotmem := (List.nodup_cons.mp hnd.of_append_right).1
    intro it hit heq
    have hmm : it.1 ∈ suf.map Prod.fst := List.mem_map_of_mem Prod.fst hit
    rw [heq] at hmm
    exact hnotmem hmm
  have hFrest : ∀ it ∈ (S, (CornerRadiusMap.new rect).get S) :: suf, it.1 ≠ F := by
    have hdisj := List.disjoint_of_nodup_append hnd
    have hFmem : F ∈ pre.map Prod.fst := List.mem_map_of_mem Prod.fst hFpre
    intro it hit heq
    have hmm : it.1 ∈ ((S, (CornerRadiusMap.new rect).get S) :: suf).map Prod.fst :=
      List.mem_map_of_mem Prod.fst hit
    rw [List.map_cons, heq] at hmm
    exact hdisj hFmem hmm
  obtain ⟨p₁, p₂, hpre⟩ := List.append_of_mem hFpre
  have hFp₂ : ∀ it ∈ p₂, it.1 ≠ F := by
    have hnd' : (pre.map Prod.fst).Nodup := hnd.of_append_left
    rw [hpre, List.map_append, List.map_cons] at hnd'
    have hnotmem := (List.nodup_cons.mp hnd'.of_append_right).1
    intro it hit heq
    have hmm : it.1 ∈ p₂.map Prod.fst := List.mem_map_of_mem Prod.fst hit
    rw [heq] at hmm
    exact hnotmem hmm
  have hnnAll := dist_items_nonneg rect h1 h2 h3 h4
  have hinvp₁ : DistInv rect
      (p₁.foldl (process_corner rect) (Budget.new, CornerRadiusMap.new rect)) := by
    refine fold_inv rect hw hh p₁ _ (dist_init_inv rect h1 h2 h3 h4) ?_
    intro it hit
    refine hnnAll it ?_
    rw [hsplit, hpre]
    exact List.mem_append_left _ (List.mem_append_left _ hit)
  have hρF : 0 ≤ (CornerRadiusMap.new rect).get F := by
    cases F <;> simp [CornerRadiusMap.new, CornerRadiusMap.get, h1, h2, h3, h4]
  have hFval := fold_processed rect (Budget.new, CornerRadiusMap.new rect) p₁ p₂ F
    ((CornerRadiusMap.new rect).get F) hFp₂
  have hcF1 := calc_budget_bounds rect
    (p₁.foldl (process_corner rect) (Budget.new, CornerRadiusMap.new rect))
    ((CornerRadiusMap.new rect).get F) (get_adjacents F).1 hw hh hinvp₁ hρF (adj_back F).1
  have hcF2 := calc_budget_bounds rect
    (p₁.foldl (process_corner rect) (Budget.new, CornerRadiusMap.new rect))
    ((CornerRadiusMap.new rect).get F) (get_adjacents F).2 hw hh hinvp₁ hρF (adj_back F).2
  have hF0 : 0 ≤ (pre.foldl (process_corner rect)
      (Budget.new, CornerRadiusMap.new rect)).1.get F := by
    rw [hpre, hFval.1]
    exact le_min hcF1.1 hcF2.1
  have hFfinal : ((dist_items rect).foldl (process_corner rect)
        (Budget.new, CornerRadiusMap.new rect)).1.get F =
      (pre.foldl (process_corner rect) (Budget.new, CornerRadiusMap.new rect)).1.get F := by
    rw [hsplit, List.foldl_append]
    exact (fold_get_not_mem rect _ _ F hFrest).1
  have hSval := fold_processed rect (Budget.new, CornerRadiusMap.new rect) pre suf S
    ((CornerRadiusMap.new rect).get S) hSsuf
  have hklen : pre.length < (dist_items rect).length := by
    rw [hsplit]
    simp
  have hitem : (dist_items rect)[pre.length]? =
      some (S, (CornerRadiusMap.new rect).get S) := by
    rw [hsplit, List.getElem?_append_right (le_refl pre.length)]
    simp
  have htake : (dist_items rect).take pre.length = pre := by
    rw [hsplit]
    exact List.take_left pre _
  have hatt := hattS pre.length hklen hitem
  simp only [state_after] at hatt
  rw [htake] at hatt
  have hcalc_on : calc_budget rect
      (pre.foldl (process_corner rect) (Budget.new, CornerRadiusMap.new rect)).1
      (pre.foldl (process_corner rect) (Budget.new, CornerRadiusMap.new rect)).2
      ((CornerRadiusMap.new rect).get S) (adj_on S s) =
      side_len rect s - (pre.foldl (process_corner rect)
        (Budget.new, CornerRadiusMap.new rect)).1.get F := by
    rw [hadjS]
    exact calc_budget_leftover rect _ _ ⟨F, s⟩ (ne_of_gt hS0) hF0
  have hSbudget : ((dist_items rect).foldl (process_corner rect)
        (Budget.new, CornerRadiusMap.new rect)).1.get S =
      side_len rect s - (pre.foldl (process_corner rect)
        (Budget.new, CornerRadiusMap.new rect)).1.get F := by
    rw [hsplit, hSval.1]
    by_cases hside1 : (get_adjacents S).1.side = s
    · have h_on : adj_on S s = (get_adjacents S).1 := by rw [adj_on, if_pos hside1]
      have h_off : adj_off S s = (get_adjacents S).2 := by rw [adj_off, if_pos hside1]
      rw [← h_on, ← h_off, min_eq_left hatt, hcalc_on]
    · have h_on : adj_on S s = (get_adjacents S).2 := by rw [adj_on, if_neg hside1]
      have h_off : adj_off S s = (get_adjacents S).1 := by rw [adj_off, if_neg hside1]
      rw [← h_off, ← h_on, min_comm, min_eq_left hatt, hcalc_on]
  rw [distribute_eq_fold rect F, distribute_eq_fold rect S]
  dsimp only
  rw [hFfinal, hSbudget]
  ring

/-- C3: for every rectangle with non-negative width, height and radii and
every side: if both of the side's endpoint corners have strictly positive raw
radii and each of them attains its budget minimum on this shared side (is not
constrained by its opposite edge), then the two budgets assigned to those
corners sum exactly to the side's length. -/
theorem c3_budget_conservation (rect : RoundedRectangle α)
    (hw : 0 ≤ rect.width) (hh : 0 ≤ rect.height)
    (h1 : 0 ≤ rect.top_left_corner_radius) (h2 : 0 ≤ rect.top_right_corner_radius)
    (h3 : 0 ≤ rect.bottom_right_corner_radius)
    (h4 : 0 ≤ rect.bottom_left_corner_radius) (s : Side)
    (hA0 : 0 < (CornerRadiusMap.new rect).get (Side.corners s).1)
    (hB0 : 0 < (CornerRadiusMap.new rect).get (Side.corners s).2)
    (hattA : attained_on rect (Side.corners s).1 s)
    (hattB : attained_on rect (Side.corners s).2 s) :
    (corner_norm (distribute_and_normalize rect)
        (Side.corners s).1).rounding_and_smoothing_budget +
      (corner_norm (distribute_and_normalize rect)
        (Side.corners s).2).rounding_and_smoothing_budget = side_len rect s := by
  have hAB : (Side.corners s).1 ≠ (Side.corners s).2 := by cases s <;> decide
  have hadjA : adj_on (Side.corners s).1 s = ⟨(Side.corners s).2, s⟩ := by
    cases s <;> decide
  have hadjB : adj_on (Side.corners s).2 s = ⟨(Side.corners s).1, s⟩ := by
    cases s <;> decide
  obtain ⟨l₁, l₂, hsplitA⟩ := List.append_of_mem (dist_items_mem rect (Side.corners s).1)
  have hBmem := dist_items_mem rect (Side.corners s).2
  rw [hsplitA] at hBmem
  rcases List.mem_append.mp hBmem with hB1 | hB2
  · have hsum := budget_pair_aux rect hw hh h1 h2 h3 h4 (Side.corners s).2
      (Side.corners s).1 s hadjA hA0 hattA l₁ l₂ hsplitA hB1
    linarith
  · rcases List.mem_cons.mp hB2 with hBeq | hB2'
    · have hco : (Side.corners s).2 = (Side.corners s).1 := congrArg Prod.fst hBeq
      exact absurd hco.symm hAB
    · obtain ⟨m₁, m₂, hm⟩ := List.append_of_mem hB2'
      have hsplitB : dist_items rect =
          (l₁ ++ ((Side.corners s).1,
            (CornerRadiusMap.new rect).get (Side.corners s).1) :: m₁) ++
            ((Side.corners s).2,
              (CornerRadiusMap.new rect).get (Side.corners s).2) :: m₂ := by
        rw [hsplitA, hm]
        simp
      have hApre : ((Side.corners s).1,
          (CornerRadiusMap.new rect).get (Side.corners s).1) ∈
          l₁ ++ ((Side.corners s).1,
            (CornerRadiusMap.new rect).get (Side.corners s).1) :: m₁ := by
        simp
      exact budget_pair_aux rect hw hh h1 h2 h3 h4 (Side.corners s).1 (Side.corners s).2
        s hadjB hB0 hattB _ _ hsplitB hApre

/-- Witness for C3 over `ℚ`: the 40×100 rectangle with radii
`(40, 40, 10, 10)` and the top side; both top corners attain their budget
minimum on the shared top edge, and the two budgets sum to the width `40`. -/
theorem c3_budget_conservation_witness :
    (0 < (CornerRadiusMap.new (⟨40, 40, 10, 10, 40, 100⟩ : RoundedRectangle ℚ)).get
        (Side.corners Side.top).1 ∧
      0 < (CornerRadiusMap.new (⟨40, 40, 10, 10, 40, 100⟩ : RoundedRectangle ℚ)).get
        (Side.corners Side.top).2 ∧
      attained_on (⟨40, 40, 10, 10, 40, 100⟩ : RoundedRectangle ℚ)
        (Side.corners Side.top).1 Side.top ∧
      attained_on (⟨40, 40, 10, 10, 40, 100⟩ : RoundedRectangle ℚ)
        (Side.corners Side.top).2 Side.top) ∧
      (corner_norm (distribute_and_normalize
          (⟨40, 40, 10, 10, 40, 100⟩ : RoundedRectangle ℚ))
          (Side.corners Side.top).1).rounding_and_smoothing_budget +
        (corner_norm (distribute_and_normalize
          (⟨40, 40, 10, 10, 40, 100⟩ : RoundedRectangle ℚ))
          (Side.corners Side.top).2).rounding_and_smoothing_budget =
        side_len (⟨40, 40, 10, 10, 40, 100⟩ : RoundedRectangle ℚ) Side.top := by
  have hitemsQ : dist_items (⟨40, 40, 10, 10, 40, 100⟩ : RoundedRectangle ℚ) =
      [(Corner.topLeft, 40), (Corner.topRight, 40), (Corner.bottomLeft, 10),
       (Corner.bottomRight, 10)] := by
    norm_num [dist_items, CornerRadiusMap.get_items, CornerRadiusMap.new, sort_desc,
      ordered_insert_desc]
  have hattTL : attained_on (⟨40, 40, 10, 10, 40, 100⟩ : RoundedRectangle ℚ)
      Corner.topLeft Side.top := by
    intro k hk hitem
    rw [hitemsQ] at hk hitem
    simp only [List.length_cons, List.length_nil] at hk
    interval_cases k
    · simp only [state_after, hitemsQ, List.take_zero, List.foldl_nil]
      norm_num [calc_budget, adj_on, adj_off, get_adjacents, side_len, Budget.new,
        Budget.get, CornerRadiusMap.new, CornerRadiusMap.get]
    · norm_num [List.getElem?_cons_succ, List.getElem?_cons_zero, CornerRadiusMap.new,
        CornerRadiusMap.get] at hitem
      exact Corner.noConfusion hitem
    · norm_num [List.getElem?_cons_succ, List.getElem?_cons_zero, CornerRadiusMap.new,
        CornerRadiusMap.get] at hitem
    · norm_num [List.getElem?_cons_succ, List.getElem?_cons_zero, CornerRadiusMap.new,
        CornerRadiusMap.get] at hitem
  have hattTR : attained_on (⟨40, 40, 10, 10, 40, 100⟩ : RoundedRectangle ℚ)
      Corner.topRight Side.top := by
    intro k hk hitem
    rw [hitemsQ] at hk hitem
    simp only [List.length_cons, List.length_nil] at hk
    interval_cases k
    · norm_num [List.getElem?_cons_zero, CornerRadiusMap.new, CornerRadiusMap.get]
        at hitem
      exact Corner.noConfusion hitem
    · simp only [state_after, hitemsQ]
      norm_num [calc_budget, adj_on, adj_off, get_adjacents, side_len, process_corner,
        Budget.new, Budget.get, Budget.set, CornerRadiusMap.new, CornerRadiusMap.get,
        CornerRadiusMap.set]
    · norm_num [List.getElem?_cons_succ, List.getElem?_cons_zero, CornerRadiusMap.new,
        CornerRadiusMap.get] at hitem
    · norm_num [List.getElem?_cons_succ, List.getElem?_cons_zero, CornerRadiusMap.new,
        CornerRadiusMap.get] at hitem
  refine ⟨⟨?_, ?_, hattTL, hattTR⟩, ?_⟩
  · norm_num [CornerRadiusMap.new, CornerRadiusMap.get, Side.corners]
  · norm_num [CornerRadiusMap.new, CornerRadiusMap.get, Side.corners]
  · exact c3_budget_conservation (⟨40, 40, 10, 10, 40, 100⟩ : RoundedRectangle ℚ)
      (by norm_num) (by norm_num) (by norm_num) (by norm_num) (by norm_num)
      (by norm_num) Side.top
      (by norm_num [CornerRadiusMap.new, CornerRadiusMap.get, Side.corners])
      (by norm_num [CornerRadiusMap.new, CornerRadiusMap.get, Side.corners])
      hattTL hattTR

/-- On non-NaN radii the panicking insertion agrees with the total insertion:
no comparison ever returns `none`. -/
theorem ordered_insert_checked_some (x : Corner × ℝ) (l : List (Corner × ℝ)) :
    ordered_insert_checked (x.1, some x.2) (l.map fun q => (q.1, some q.2)) =
      some ((ordered_insert_desc x l).map fun q => (q.1, some q.2)) := by
  induction l with
  | nil => rfl
  | cons y l ih =>
    simp only [List.map_cons, ordered_insert_checked, ordered_insert_desc, fp_compare]
    by_cases h : y.2 ≤ x.2
    · rw [if_pos (by simp [compare_gt_iff_gt, not_lt.mpr h]), if_pos h]
      simp
    · rw [if_neg (by simp [compare_gt_iff_gt, not_le.mp h]), if_neg h]
      simp [ih]

/-- On non-NaN radii the panicking sort agrees with the total sort. -/
theorem sort_desc_checked_some (l : List (Corner × ℝ)) :
    sort_desc_checked (l.map fun q => (q.1, some q.2)) =
      some ((sort_desc l).map fun q => (q.1, some q.2)) := by
  induction l with
  | nil => rfl
  | cons x l ih =>
    simp only [List.map_cons, sort_desc_checked, sort_desc, ih, Option.bind_some]
    exact ordered_insert_checked_some x (sort_desc l)

/-- C7: on the documented domain (non-NaN, non-negative radii — reals model
exactly the non-NaN values) the radius sort's `partial_cmp(..).unwrap()` never
panics: the checked sort succeeds and returns exactly the order that
`CornerRadiusMap::get_items` computes, so `get_svg_path` runs to completion
and returns its path string. -/
theorem c7_sort_never_panics (tl tr bl br : ℝ) (htl : 0 ≤ tl) (htr : 0 ≤ tr)
    (hbl : 0 ≤ bl) (hbr : 0 ≤ br) :
    get_items_checked (some tl) (some tr) (some bl) (some br) =
      some ((CornerRadiusMap.get_items ⟨tl, tr, bl, br⟩).map fun q => (q.1, some q.2)) := by
  have h := sort_desc_checked_some [(Corner.topLeft, tl), (Corner.topRight, tr),
    (Corner.bottomLeft, bl), (Corner.bottomRight, br)]
  simpa [get_items_checked, CornerRadiusMap.get_items] using h

/-- Witness for C7 at concrete radii `1, 2, 3, 4`. -/
theorem c7_sort_never_panics_witness :
    (0:ℝ) ≤ 1 ∧ (0:ℝ) ≤ 2 ∧ (0:ℝ) ≤ 3 ∧ (0:ℝ) ≤ 4 ∧
      get_items_checked (some 1) (some 2) (some 3) (some 4) =
        some ((CornerRadiusMap.get_items ⟨(1:ℝ), 2, 3, 4⟩).map fun q => (q.1, some q.2)) :=
  ⟨by norm_num, by norm_num, by norm_num, by norm_num,
    c7_sort_never_panics 1 2 3 4 (by norm_num) (by norm_num) (by norm_num) (by norm_num)⟩

/-- C10: with a NaN among the resolved radii (here the top-left one) the
four-way equality chain fails (NaN is unequal even to itself), so the uniform
fast path is skipped, and the descending radius sort panics at the
`partial_cmp(..).unwrap()` — modelled by the checked sort returning `none`
instead of a sorted item list. -/
theorem c10_nan_radius_panics :
    uniform_radius_test none (some 10) (some 10) (some 10) = false ∧
      get_items_checked none (some 10) (some 10) (some 10) = none := by
  refine ⟨rfl, ?_⟩
  have h10 : compare (10:ℝ) 10 ≠ Ordering.gt := by
    simp [compare_gt_iff_gt]
  simp [get_items_checked, sort_desc_checked, ordered_insert_checked, fp_compare, h10]

/-- The string `get_svg_path` returns is its token list joined by single
spaces. -/
theorem get_svg_path_eq_tokens (fmt : ℝ → String) (params : SquircleParams) :
    get_svg_path fmt params = " ".intercalate (get_svg_path_out_tokens fmt params) := by
  simp only [get_svg_path, get_svg_path_out_tokens, get_svg_path_from_path_params]
  split <;> rfl

/-- Tokens of the top-right corner: command letters, the structural constants
`0`/`1`, or fixed-4 formatted numbers. -/
theorem draw_top_right_tokens_shape (fmt : ℝ → String)
    (hfmt : ∀ x, is_fixed_4dp (fmt x) = true) (pp : CornerPathParams) :
    ∀ t ∈ draw_top_right_tokens fmt pp,
      is_command_token t = true ∨ t = "0" ∨ t = "1" ∨ is_fixed_4dp t = true := by
  intro t ht
  simp only [draw_top_right_tokens] at ht
  split at ht <;> fin_cases ht <;> simp [is_command_token, hfmt]

/-- Tokens of the bottom-right corner: same shape. -/
theorem draw_bottom_right_tokens_shape (fmt : ℝ → String)
    (hfmt : ∀ x, is_fixed_4dp (fmt x) = true) (pp : CornerPathParams) :
    ∀ t ∈ draw_bottom_right_tokens fmt pp,
      is_command_token t = true ∨ t = "0" ∨ t = "1" ∨ is_fixed_4dp t = true := by
  intro t ht
  simp only [draw_bottom_right_tokens] at ht
  split at ht <;> fin_cases ht <;> simp [is_command_token, hfmt]

/-- Tokens of the bottom-left corner: same shape. -/
theorem draw_bottom_left_tokens_shape (fmt : ℝ → String)
    (hfmt : ∀ x, is_fixed_4dp (fmt x) = true) (pp : CornerPathParams) :
    ∀ t ∈ draw_bottom_left_tokens fmt pp,
      is_command_token t = true ∨ t = "0" ∨ t = "1" ∨ is_fixed_4dp t = true := by
  intro t ht
  simp only [draw_bottom_left_tokens] at ht
  split at ht <;> fin_cases ht <;> simp [is_command_token, hfmt]

/-- Tokens of the top-left corner: same shape. -/
theorem draw_top_left_tokens_shape (fmt : ℝ → String)
    (hfmt : ∀ x, is_fixed_4dp (fmt x) = true) (pp : CornerPathParams) :
    ∀ t ∈ draw_top_left_tokens fmt pp,
      is_command_token t = true ∨ t = "0" ∨ t = "1" ∨ is_fixed_4dp t = true := by
  intro t ht
  simp only [draw_top_left_tokens] at ht
  split at ht <;> fin_cases ht <;> simp [is_command_token, hfmt]

/-- Tokens of the assembled path: command letters, the structural constants
`0`/`1`, or fixed-4 formatted numbers. -/
theorem get_svg_path_tokens_shape (fmt : ℝ → String)
    (hfmt : ∀ x, is_fixed_4dp (fmt x) = true) (input : SVGPathInput) :
    ∀ t ∈ get_svg_path_tokens fmt input,
      is_command_token t = true ∨ t = "0" ∨ t = "1" ∨ is_fixed_4dp t = true := by
  intro t ht
  simp only [get_svg_path_tokens, List.mem_append] at ht
  rcases ht with ((((((((h | h) | h) | h) | h) | h) | h) | h) | h)
  · fin_cases h <;> simp [is_command_token, hfmt]
  · exact draw_top_right_tokens_shape fmt hfmt _ t h
  · fin_cases h <;> simp [is_command_token, hfmt]
  · exact draw_bottom_right_tokens_shape fmt hfmt _ t h
  · fin_cases h <;> simp [is_command_token, hfmt]
  · exact draw_bottom_left_tokens_shape fmt hfmt _ t h
  · fin_cases h <;> simp [is_command_token, hfmt]
  · exact draw_top_left_tokens_shape fmt hfmt _ t h
  · fin_cases h <;> simp [is_command_token, hfmt]

/-- C9 counterexample: the claim "every numeric coordinate and control value
in the returned path string carries exactly four decimal places" fails: with
a formatter that always emits fixed-4 strings, the output of `get_svg_path`
on a plain 100×100 square (all radii defaulting to `0`) contains the bare
numeric token `0` (for example the `y` of the initial `M` command), which is
not a command letter and has no decimal places. -/
theorem c9_counterexample :
    (∀ x : ℝ, is_fixed_4dp (fmt0 x) = true) ∧
      ¬(∀ t ∈ get_svg_path_out_tokens fmt0 c9_input,
          is_command_token t = true ∨ is_fixed_4dp t = true) := by
  have hm1 : min (100:ℝ) 100 / 2 = 50 := by norm_num
  have hm2 : min (0:ℝ) 50 = 0 := min_eq_left (by norm_num)
  have hpp : get_path_params_for_corner ⟨0, 0, false, 50⟩ =
      ⟨0, 0, 0, 0, 0, 0, 0⟩ :=
    get_path_params_zero_radius ⟨0, 0, false, 50⟩ rfl (by norm_num)
  have htok : get_svg_path_out_tokens fmt0 c9_input =
      ["M", "0.0000", "0", "l", "0.0000", "0",
       "L", "0.0000", "0.0000", "l", "0", "0.0000",
       "L", "0.0000", "0.0000", "l", "0.0000", "0",
       "L", "0", "0.0000", "l", "0", "0.0000", "Z"] := by
    simp only [get_svg_path_out_tokens, c9_input, Option.getD_none, eq_self_iff_true,
      and_self, if_true, hm1, hm2, hpp, get_svg_path_tokens, draw_top_right_tokens,
      draw_bottom_right_tokens, draw_bottom_left_tokens, draw_top_left_tokens, fmt0,
      lt_irrefl, if_false]
    norm_num
  refine ⟨fun x => by simp only [fmt0]; decide, fun hall => ?_⟩
  have h0 := hall "0" (by rw [htok]; simp)
  rcases h0 with h | h
  · exact absurd h (by decide)
  · exact absurd h (by decide)

/-- C9 amended: every token of the path string emitted by `get_svg_path` is a
command letter (`M`, `L`, `l`, `c`, `a`, `Z`), one of the structural constant
tokens `0` or `1` (the template's literal coordinates and arc flags), or a
number produced by the fixed-4 formatter; only the values passed through a
format placeholder carry the 4-decimal formatting. -/
theorem c9_fixed4_amended (fmt : ℝ → String)
    (hfmt : ∀ x, is_fixed_4dp (fmt x) = true) (params : SquircleParams) :
    ∀ t ∈ get_svg_path_out_tokens fmt params,
      is_command_token t = true ∨ t = "0" ∨ t = "1" ∨ is_fixed_4dp t = true := by
  intro t ht
  simp only [get_svg_path_out_tokens] at ht
  split at ht
  · exact get_svg_path_tokens_shape fmt hfmt _ t ht
  · exact get_svg_path_tokens_shape fmt hfmt _ t ht

/-- Witness for the amended C9 at the constant fixed-4 formatter and the
100×100 square input. -/
theorem c9_fixed4_amended_witness :
    (∀ x : ℝ, is_fixed_4dp (fmt0 x) = true) ∧
      (∀ t ∈ get_svg_path_out_tokens fmt0 c9_input,
        is_command_token t = true ∨ t = "0" ∨ t = "1" ∨ is_fixed_4dp t = true) :=
  ⟨fun x => by simp only [fmt0]; decide,
    c9_fixed4_amended fmt0 (fun x => by simp only [fmt0]; decide) c9_input⟩

/-- Trace of the assembled path for any four corner parameter records whose
top-left record satisfies the control-distance sum identity: the trace ends
where it starts (the `Z` draws the closing segment back to the start), the
start point lies on the top edge (`y = 0`), and the point reached just before
`Z` also has `y = 0`, so the closing segment runs along the top edge. -/
theorem svg_path_steps_trace (width height : ℝ) (tr br bl tl : CornerPathParams)
    (htl : tl.a + tl.b + tl.c + tl.d + tl.arc_section_length = tl.p) :
    (run_trace ⟨(0, 0), (0, 0)⟩ (svg_path_steps width height tr br bl tl)).cur =
        (run_trace ⟨(0, 0), (0, 0)⟩ (svg_path_steps width height tr br bl tl)).start ∧
      (run_trace ⟨(0, 0), (0, 0)⟩ (svg_path_steps width height tr br bl tl)).start.2 = 0 ∧
      (run_trace ⟨(0, 0), (0, 0)⟩
        ((svg_path_steps width height tr br bl tl).dropLast)).cur.2 = 0 := by
  have hdrop : (svg_path_steps width height tr br bl tl).dropLast =
      svg_path_pre_steps width height tr br bl tl := by
    simp [svg_path_steps]
  rw [hdrop]
  simp only [svg_path_steps, svg_path_pre_steps, top_right_steps, bottom_right_steps,
    bottom_left_steps, top_left_steps]
  split_ifs <;>
  · simp only [run_trace, List.append_assoc, List.foldl_append, List.foldl_cons,
      List.foldl_nil, step_trace]
    refine ⟨trivial, trivial, ?_⟩
    linarith [htl]

/-- Items of the radius map when all four radii are equal: the stable sort
keeps the original corner order. -/
theorem get_items_uniform (r : ℝ) :
    (⟨r, r, r, r⟩ : CornerRadiusMap ℝ).get_items =
      [(Corner.topLeft, r), (Corner.topRight, r), (Corner.bottomLeft, r),
       (Corner.bottomRight, r)] := by
  simp [CornerRadiusMap.get_items, sort_desc, ordered_insert_desc]

/-- Distribution on a uniform rectangle with positive radius: every corner
gets budget `min width height / 2` and radius clamped to it. -/
theorem distribute_uniform_pos (w h r : ℝ) (hw : 0 ≤ w) (hh : 0 ≤ h) (hr : 0 < r) :
    distribute_and_normalize ⟨r, r, r, r, w, h⟩ =
      ⟨⟨min r (min w h / 2), min w h / 2⟩, ⟨min r (min w h / 2), min w h / 2⟩,
       ⟨min r (min w h / 2), min w h / 2⟩, ⟨min r (min w h / 2), min w h / 2⟩⟩ := by
  have h2r : r + r ≠ 0 := by positivity
  have hdiv : r / (r + r) = 1 / 2 := by rw [div_eq_div_iff h2r two_ne_zero]; ring
  rcases le_total w h with hwh | hwh
  · have hmin : min w h = w := min_eq_left hwh
    have ha1 : min (1 / 2 * w) (1 / 2 * h) = w / 2 := by
      rw [min_eq_left (by linarith)]; ring
    have ha2 : min (w - w / 2) (1 / 2 * h) = w / 2 := by
      rw [min_eq_left (by linarith)]; ring
    have ha3 : min (1 / 2 * w) (h - w / 2) = w / 2 := by
      rw [min_eq_left (by linarith)]; ring
    have ha4 : min (w - w / 2) (h - w / 2) = w / 2 := by
      rw [min_eq_left (by linarith)]; ring
    have hc1 : (0:ℝ) ≤ w / 2 := by linarith
    norm_num [distribute_and_normalize, get_items_uniform, process_corner, calc_budget,
      Budget.new, Budget.get, Budget.set, CornerRadiusMap.new, CornerRadiusMap.get,
      CornerRadiusMap.set, get_adjacents, side_len, hr.ne', hdiv, hmin, ha1, ha2, ha3,
      ha4, hc1]
  · have hmin : min w h = h := min_eq_right hwh
    have hb1 : min (1 / 2 * w) (1 / 2 * h) = h / 2 := by
      rw [min_eq_right (by linarith)]; ring
    have hb2 : min (w - h / 2) (1 / 2 * h) = h / 2 := by
      rw [min_eq_right (by linarith)]; ring
    have hb3 : min (1 / 2 * w) (h - h / 2) = h / 2 := by
      rw [min_eq_right (by linarith)]; ring
    have hb4 : min (w - h / 2) (h - h / 2) = h / 2 := by
      rw [min_eq_right (by linarith)]; ring
    have hc1 : (0:ℝ) ≤ h / 2 := by linarith
    norm_num [distribute_and_normalize, get_items_uniform, process_corner, calc_budget,
      Budget.new, Budget.get, Budget.set, CornerRadiusMap.new, CornerRadiusMap.get,
      CornerRadiusMap.set, get_adjacents, side_len, hr.ne', hdiv, hmin, hb1, hb2, hb3,
      hb4, hc1]

/-- Distribution on a uniform rectangle with radius zero: every corner gets
budget `0` and radius `0` (the zero/zero special case). -/
theorem distribute_uniform_zero (w h : ℝ) :
    distribute_and_normalize ⟨0, 0, 0, 0, w, h⟩ = ⟨⟨0, 0⟩, ⟨0, 0⟩, ⟨0, 0⟩, ⟨0, 0⟩⟩ := by
  norm_num [distribute_and_normalize, get_items_uniform, process_corner, calc_budget,
    Budget.new, Budget.get, Budget.set, CornerRadiusMap.new, CornerRadiusMap.get,
    CornerRadiusMap.set, get_adjacents, side_len]

/-- C2: for every `width, height ≥ 0`, `smoothing ≥ 0`, any
`preserve_smoothing` flag and every radius `r ≥ 0`, `get_svg_path` with all
four per-corner radii equal to `r` (the fast uniform branch, budget
`min width height / 2`) returns the identical path string to running
`distribute_and_normalize` on the same rectangle and feeding the four
resulting normalized corners through `get_path_params_for_corner` and
`get_svg_path_from_path_params`. -/
theorem c2_uniform_equivalence (fmt : ℝ → String) (w h s r : ℝ) (psm : Bool)
    (hw : 0 ≤ w) (hh : 0 ≤ h) (hs : 0 ≤ s) (hr : 0 ≤ r) :
    get_svg_path fmt ⟨w, h, s, none, some r, some r, some r, some r, some psm⟩ =
      get_svg_path_from_path_params fmt
        ⟨w, h,
         get_path_params_for_corner
           ⟨(distribute_and_normalize ⟨r, r, r, r, w, h⟩).top_right.radius, s, psm,
            (distribute_and_normalize
              ⟨r, r, r, r, w, h⟩).top_right.rounding_and_smoothing_budget⟩,
         get_path_params_for_corner
           ⟨(distribute_and_normalize ⟨r, r, r, r, w, h⟩).bottom_right.radius, s, psm,
            (distribute_and_normalize
              ⟨r, r, r, r, w, h⟩).bottom_right.rounding_and_smoothing_budget⟩,
         get_path_params_for_corner
           ⟨(distribute_and_normalize ⟨r, r, r, r, w, h⟩).bottom_left.radius, s, psm,
            (distribute_and_normalize
              ⟨r, r, r, r, w, h⟩).bottom_left.rounding_and_smoothing_budget⟩,
         get_path_params_for_corner
           ⟨(distribute_and_normalize ⟨r, r, r, r, w, h⟩).top_left.radius, s, psm,
            (distribute_and_normalize
              ⟨r, r, r, r, w, h⟩).top_left.rounding_and_smoothing_budget⟩⟩ := by
  have hm : (0:ℝ) ≤ min w h / 2 := by
    have h0 : (0:ℝ) ≤ min w h := le_min hw hh
    linarith
  rcases eq_or_lt_of_le hr with hr0 | hrpos
  · subst hr0
    simp only [get_svg_path, Option.getD_some, eq_self_iff_true, and_self, if_true,
      distribute_uniform_zero]
    rw [min_eq_left hm]
    rw [get_path_params_zero_radius ⟨0, s, psm, min w h / 2⟩ rfl hm,
      get_path_params_zero_radius ⟨0, s, psm, 0⟩ rfl le_rfl]
  · simp only [get_svg_path, Option.getD_some, eq_self_iff_true, and_self, if_true,
      distribute_uniform_pos w h r hw hh hrpos]

/-- Witness for C2 at a 100×100 square, radius 20, smoothing 0.6. -/
theorem c2_uniform_equivalence_witness :
    (0:ℝ) ≤ 100 ∧ (0:ℝ) ≤ 0.6 ∧ (0:ℝ) ≤ 20 ∧
      get_svg_path fmt0 ⟨100, 100, 0.6, none, some 20, some 20, some 20, some 20,
          some false⟩ =
        get_svg_path_from_path_params fmt0
          ⟨100, 100,
           get_path_params_for_corner
             ⟨(distribute_and_normalize ⟨20, 20, 20, 20, 100, 100⟩).top_right.radius, 0.6,
              false, (distribute_and_normalize
                ⟨20, 20, 20, 20, 100, 100⟩).top_right.rounding_and_smoothing_budget⟩,
           get_path_params_for_corner
             ⟨(distribute_and_normalize ⟨20, 20, 20, 20, 100, 100⟩).bottom_right.radius,
              0.6, false, (distribute_and_normalize
                ⟨20, 20, 20, 20, 100, 100⟩).bottom_right.rounding_and_smoothing_budget⟩,
           get_path_params_for_corner
             ⟨(distribute_and_normalize ⟨20, 20, 20, 20, 100, 100⟩).bottom_left.radius,
              0.6, false, (distribute_and_normalize
                ⟨20, 20, 20, 20, 100, 100⟩).bottom_left.rounding_and_smoothing_budget⟩,
           get_path_params_for_corner
             ⟨(distribute_and_normalize ⟨20, 20, 20, 20, 100, 100⟩).top_left.radius, 0.6,
              false, (distribute_and_normalize
                ⟨20, 20, 20, 20, 100, 100⟩).top_left.rounding_and_smoothing_budget⟩⟩ :=
  ⟨by norm_num, by norm_num, by norm_num,
    c2_uniform_equivalence fmt0 100 100 0.6 20 false (by norm_num) (by norm_num)
      (by norm_num) (by norm_num)⟩

/-- C1: for every input with non-negative width, height and radii and
smoothing `≥ 0`, the command sequence emitted by `get_svg_path` is a closed
contour: following every emitted command (`M`, `L`, `l`, `c`, `a`) and the
final `Z` brings the current point back exactly to the initial point, whose
`y`-coordinate is `0`; moreover the point reached just before `Z` already has
`y = 0`, so `Z` closes the contour along the top edge. -/
theorem c1_path_closure (params : SquircleParams) (hw : 0 ≤ params.width)
    (hh : 0 ≤ params.height) (hs : 0 ≤ params.corner_smoothing)
    (hcr : ∀ x ∈ params.corner_radius, 0 ≤ x)
    (htl : ∀ x ∈ params.top_left_corner_radius, 0 ≤ x)
    (htr : ∀ x ∈ params.top_right_corner_radius, 0 ≤ x)
    (hbr : ∀ x ∈ params.bottom_right_corner_radius, 0 ≤ x)
    (hbl : ∀ x ∈ params.bottom_left_corner_radius, 0 ≤ x) :
    (run_trace ⟨(0, 0), (0, 0)⟩ (get_svg_path_steps params)).cur =
        (run_trace ⟨(0, 0), (0, 0)⟩ (get_svg_path_steps params)).start ∧
      (run_trace ⟨(0, 0), (0, 0)⟩ (get_svg_path_steps params)).start.2 = 0 ∧
      (run_trace ⟨(0, 0), (0, 0)⟩ ((get_svg_path_steps params).dropLast)).cur.2 = 0 := by
  simp only [get_svg_path_steps]
  split
  · exact svg_path_steps_trace _ _ _ _ _ _ (get_path_params_sum _)
  · exact svg_path_steps_trace _ _ _ _ _ _ (get_path_params_sum _)

/-- Witness for C1 at a concrete input (100×100, all radii 20, smoothing 0.6). -/
theorem c1_path_closure_witness :
    (0:ℝ) ≤ 100 ∧
      ((run_trace ⟨(0, 0), (0, 0)⟩
          (get_svg_path_steps ⟨100, 100, 0.6, none, some 20, some 20, some 20, some 20,
            some false⟩)).cur =
        (run_trace ⟨(0, 0), (0, 0)⟩
          (get_svg_path_steps ⟨100, 100, 0.6, none, some 20, some 20, some 20, some 20,
            some false⟩)).start ∧
      (run_trace ⟨(0, 0), (0, 0)⟩
          (get_svg_path_steps ⟨100, 100, 0.6, none, some 20, some 20, some 20, some 20,
            some false⟩)).start.2 = 0 ∧
      (run_trace ⟨(0, 0), (0, 0)⟩
          ((get_svg_path_steps ⟨100, 100, 0.6, none, some 20, some 20, some 20, some 20,
            some false⟩).dropLast)).cur.2 = 0) :=
  ⟨by norm_num,
    c1_path_closure ⟨100, 100, 0.6, none, some 20, some 20, some 20, some 20, some false⟩
      (by norm_num) (by norm_num) (by norm_num) (by simp) (by simp) (by simp) (by simp)
      (by simp)⟩

end Squircle
